import Mathlib

/-!
Formal model of the RAG chat CLI implemented in `indexing.js`:
the conversation history buffer (`conversationHistory`, `formatHistory`),
the retrieval-and-answer operation (`chatting`), the CLI dispatcher
(`main`), and the ingestion chunking scenario.
-/

namespace RagContext

/-- A conversation turn, as pushed onto `conversationHistory`
(`indexing.js` lines 187-191). -/
structure Turn where
  question : String
  answer : String
  timestamp : String
deriving DecidableEq, Repr

/-- Sentinel string returned by `formatHistory` on an empty buffer
(`indexing.js` line 98). -/
def emptyHistoryMessage : String := "No previous conversation."

/-- Separator between formatted turns: the `.join("\n\n")` on line 103. -/
def turnSep : String := "\n\n"

/-- Model of JavaScript `Array.prototype.join(sep)`: empty list gives the
empty string, otherwise the elements separated by `sep`. -/
def joinSep (sep : String) : List String → String
  | [] => ""
  | a :: as => as.foldl (fun acc x => acc ++ sep ++ x) a

/-- One block of the transcript: the arrow function on line 102,
`(entry, index) => ...` with the 1-based turn number. -/
def formatTurn (i : Nat) (t : Turn) : String :=
  "[Turn " ++ toString (i + 1) ++ "]\nUser: " ++ t.question ++
    "\nAssistant: " ++ t.answer

/-- Model of `formatHistory()` (`indexing.js` lines 96-104): sentinel when
the buffer is empty, else the numbered transcript joined by blank lines. -/
def formatHistory (hist : List Turn) : String :=
  if hist.length = 0 then emptyHistoryMessage
  else joinSep turnSep (hist.enum.map fun p => formatTurn p.1 p.2)

/-- Model of the append-and-truncate logic after a successful answer
(`indexing.js` lines 186-196): `push` the new turn, then `shift` off the
head when the length exceeds 5. -/
def appendTurn (hist : List Turn) (t : Turn) : List Turn :=
  if (hist ++ [t]).length > 5 then (hist ++ [t]).tail else hist ++ [t]

/-- Model of the `clear` command body (`indexing.js` line 224):
`conversationHistory.length = 0` empties the array. -/
def clearHistory (_ : List Turn) : List Turn := []

/-- Metadata carried by a Pinecone search match; `text` may be absent. -/
structure MatchMetadata where
  text : Option String
deriving DecidableEq, Repr

/-- A search match returned by the vector index query (lines 118-122);
only `metadata` is consumed by the code, `score` is carried along. -/
structure SearchMatch where
  score : Int
  metadata : Option MatchMetadata
deriving DecidableEq, Repr

/-- Text of a match: `match.metadata?.text || ''` (line 131); absent
metadata or absent text collapse to the empty string. -/
def matchText (m : SearchMatch) : String :=
  match m.metadata with
  | none => ""
  | some md => md.text.getD ""

/-- Fixed delimiter between context chunks (line 133). -/
def contextSep : String := "\n\n---\n\n"

/-- Context string built from the matches (lines 130-133): map to the
metadata text, keep the non-empty ones, join with the delimiter. -/
def contextString (ms : List SearchMatch) : String :=
  joinSep contextSep ((ms.map matchText).filter fun t => t.length > 0)

/-- Arguments of the single chain invocation (lines 177-181). -/
structure ChatCall where
  context : String
  question : String
  history : String
deriving DecidableEq, Repr

/-- Observable outcome of one `chatting` call. -/
inductive Outcome where
  | noDocs
  | noText
  | answered (answer : String)
  | errorLogged (message : String)
deriving DecidableEq, Repr

/-- Console message printed for each outcome (lines 126, 136, 184, 199). -/
def outcomeMessage : Outcome → String
  | .noDocs =>
    "\n No relevant documents found in database. Please check if documents were uploaded.\n"
  | .noText => "\n  No text content found in search results.\n"
  | .answered a => a ++ "\n"
  | .errorLogged e => "Error during chatting: " ++ e

/-- Result of one `chatting` call: its outcome, the history buffer
afterwards, and the chat-model invocations it performed. -/
structure ChatResult where
  outcome : Outcome
  newHistory : List Turn
  chatCalls : List ChatCall
deriving DecidableEq, Repr

/-- An embedding vector; its numeric content is irrelevant here. -/
abbrev Vec := List Int

/-- External collaborators awaited by `chatting`: the embedding provider,
the vector index query, and the prompt-model-parser chain. A thrown
exception is modelled as `Except.error` carrying `error.message`. -/
structure Env where
  embedQuery : String → Except String Vec
  query : Vec → Except String (List SearchMatch)
  invokeChain : ChatCall → Except String String

/-- Model of `chatting(question)` (`indexing.js` lines 107-201): embed the
question, query the index, short-circuit on zero matches (line 125) or
empty context (line 135), otherwise invoke the chain once and append the
turn, truncating to 5 (lines 186-196). Any `Except.error` is the caught
exception of the try/catch (lines 198-200), which logs the message and
leaves the history untouched. `now` stands for
`new Date().toISOString()`. -/
def chatting (env : Env) (now : String) (hist : List Turn)
    (question : String) : ChatResult :=
  match env.embedQuery question with
  | .error e => ⟨.errorLogged e, hist, []⟩
  | .ok v =>
    match env.query v with
    | .error e => ⟨.errorLogged e, hist, []⟩
    | .ok found =>
      if found.length = 0 then ⟨.noDocs, hist, []⟩
      else if contextString found = "" then ⟨.noText, hist, []⟩
      else
        match env.invokeChain
            ⟨contextString found, question, formatHistory hist⟩ with
        | .error e => ⟨.errorLogged e, hist,
            [⟨contextString found, question, formatHistory hist⟩]⟩
        | .ok answer => ⟨.answered answer,
            appendTurn hist ⟨question, answer, now⟩,
            [⟨contextString found, question, formatHistory hist⟩]⟩

/-- The history-command display (line 218): `formatHistory() || 'No
history yet.'`, where the fallback is selected exactly on the falsy
(empty) string. -/
def historyCommandOutput (hist : List Turn) : String :=
  if formatHistory hist = "" then "No history yet." else formatHistory hist

/-- Whitespace for JavaScript string trimming: the WhiteSpace and
LineTerminator code points relevant to `String.prototype.trim`. -/
def jsIsWhitespace (c : Char) : Bool :=
  c == ' ' || c == '\t' || c == '\n' || c == '\r' || c == '\x0b' ||
    c == '\x0c' || c == '\u00A0' || c == '\u2028' || c == '\u2029' ||
    c == '\uFEFF'

/-- Character-list core of `String.prototype.trim`: drop leading and
trailing whitespace. -/
def jsTrimChars (l : List Char) : List Char :=
  ((l.dropWhile jsIsWhitespace).reverse.dropWhile jsIsWhitespace).reverse

/-- Model of JavaScript `String.prototype.trim()`. -/
def jsTrim (s : String) : String := ⟨jsTrimChars s.data⟩

/-- Model of JavaScript `String.prototype.toLowerCase()` as the simple
character case mapping, which is exact on the ASCII commands compared. -/
def jsToLower (s : String) : String := ⟨s.data.map Char.toLower⟩

/-- What one iteration of the read-eval loop does with the line it read. -/
inductive Action where
  | exitCmd
  | showHistory
  | clearCmd
  | ask (question : String)
  | ignore
deriving DecidableEq, Repr

/-- Model of the dispatch in `main`'s loop body (`indexing.js` lines
208-232): the three reserved commands compare the lowercased raw line for
exact equality; any other line is a question when its trim is non-empty
(line 229) and is silently ignored otherwise. -/
def dispatch (line : String) : Action :=
  if jsToLower line = "exit" then .exitCmd
  else if jsToLower line = "history" then .showHistory
  else if jsToLower line = "clear" then .clearCmd
  else if jsTrim line ≠ "" then .ask line
  else .ignore

/-- Chunk size constant (`indexing.js` line 17). -/
def CHUNK_SIZE : Nat := 1000

/-- Chunk overlap constant (`indexing.js` line 18). -/
def CHUNK_OVERLAP : Nat := 200

/-- Modelled from the spec: the chunking itself is performed by the
external `RecursiveCharacterTextSplitter` library (configured on lines
71-74 with `CHUNK_SIZE` and `CHUNK_OVERLAP`), whose implementation is not
part of this repository. Following the spec's description, a page's
character list is split into overlapping fixed-size windows: each window
holds at most `CHUNK_SIZE` characters and consecutive windows overlap in
`CHUNK_OVERLAP` characters, i.e. each window starts
`CHUNK_SIZE - CHUNK_OVERLAP` characters after the previous one. -/
def splitChars (l : List Char) : List (List Char) :=
  if h : l.length ≤ CHUNK_SIZE then [l]
  else l.take CHUNK_SIZE :: splitChars (l.drop (CHUNK_SIZE - CHUNK_OVERLAP))
termination_by l.length
decreasing_by
  simp only [CHUNK_SIZE, CHUNK_OVERLAP] at h ⊢
  simp only [List.length_drop]
  omega

/-- Sample turn used by concrete witnesses. -/
def sampleTurn (i : Nat) : Turn := ⟨toString i, toString i, toString i⟩

/-- Six sample turns, for the six-appends scenario. -/
def sixTurns : List Turn := (List.range 6).map sampleTurn

/-- Sample chunk text for concrete witnesses. -/
def docText : String := "relevant chunk text"

/-- Sample answer for concrete witnesses. -/
def answerStr : String := "the answer"

/-- Sample question for concrete witnesses. -/
def qStr : String := "what is this document about"

/-- Error message used by the failing sample environment. -/
def embedErrMsg : String := "embedding provider unreachable"

/-- A match carrying non-empty text. -/
def docMatch : SearchMatch := ⟨1, some ⟨some docText⟩⟩

/-- The empty string, as a named constant for witnesses. -/
def emptyStr : String := ""

/-- A match whose metadata text is empty. -/
def emptyTextMatch : SearchMatch := ⟨1, some ⟨some emptyStr⟩⟩

/-- A single space, as a named constant for witnesses. -/
def spaceStr : String := " "

/-- The exit command word, as a named constant for witnesses. -/
def exitStr : String := "exit"

/-- A mixed-case spelling of the exit command. -/
def exitLineSample : String := "ExIt"

/-- Environment whose search returns zero matches. -/
def envNoDocs : Env :=
  ⟨fun _ => .ok [], fun _ => .ok [], fun c => .ok c.context⟩

/-- Environment whose search returns only empty-text matches. -/
def envNoText : Env :=
  ⟨fun _ => .ok [], fun _ => .ok [emptyTextMatch], fun c => .ok c.context⟩

/-- Environment whose embedding call throws. -/
def envEmbedFail : Env :=
  ⟨fun _ => .error embedErrMsg, fun _ => .ok [], fun _ => .error embedErrMsg⟩

/-- Environment where every step succeeds with one relevant match. -/
def envOk : Env :=
  ⟨fun _ => .ok [], fun _ => .ok [docMatch], fun _ => .ok answerStr⟩

/-- The chat call `envOk` receives for question `qStr` on empty history. -/
def callOk : ChatCall := ⟨contextString [docMatch], qStr, formatHistory []⟩

/-- A 2500-character page content. -/
def sample2500 : List Char := List.replicate 2500 'a'

theorem appendTurn_of_lt (hist : List Turn) (t : Turn)
    (h : hist.length < 5) : appendTurn hist t = hist ++ [t] := by
  unfold appendTurn
  rw [if_neg]
  simp only [List.length_append, List.length_cons, List.length_nil]
  omega

theorem appendTurn_of_five (hist : List Turn) (t : Turn)
    (h : hist.length = 5) : appendTurn hist t = (hist ++ [t]).tail := by
  unfold appendTurn
  rw [if_pos]
  simp only [List.length_append, List.length_cons, List.length_nil]
  omega

theorem appendTurn_length_le (hist : List Turn) (t : Turn)
    (h : hist.length ≤ 5) : (appendTurn hist t).length ≤ 5 := by
  rcases Nat.lt_or_ge hist.length 5 with hlt | hge
  · rw [appendTurn_of_lt hist t hlt]
    simp only [List.length_append, List.length_cons, List.length_nil]
    omega
  · have h5 : hist.length = 5 := Nat.le_antisymm h hge
    rw [appendTurn_of_five hist t h5]
    simp only [List.length_tail, List.length_append, List.length_cons,
      List.length_nil]
    omega

theorem foldl_appendTurn (ts : List Turn) : ∀ h : List Turn, h.length ≤ 5 →
    ts.foldl appendTurn h = (h ++ ts).drop ((h ++ ts).length - 5) := by
  induction ts with
  | nil =>
    intro h hle
    rw [List.foldl_nil, List.append_nil, Nat.sub_eq_zero_of_le hle,
      List.drop_zero]
  | cons t rest ih =>
    intro h hle
    rw [List.foldl_cons, ih (appendTurn h t) (appendTurn_length_le h t hle)]
    rcases Nat.lt_or_ge h.length 5 with hlt | hge
    · rw [appendTurn_of_lt h t hlt, List.append_assoc, List.singleton_append]
    · have h5 : h.length = 5 := Nat.le_antisymm hle hge
      rw [appendTurn_of_five h t h5]
      obtain ⟨x, xs, rfl⟩ : ∃ x xs, h = x :: xs := by
        cases h with
        | nil => simp at h5
        | cons a as => exact ⟨a, as, rfl⟩
      have hxs : xs.length = 4 := by simpa using h5
      simp only [List.cons_append, List.tail_cons]
      rw [List.append_assoc, List.singleton_append]
      have e1 : (xs ++ t :: rest).length - 5 = rest.length := by
        simp only [List.length_append, List.length_cons, hxs]
        omega
      have e2 : (x :: (xs ++ t :: rest)).length - 5 = rest.length + 1 := by
        simp only [List.length_append, List.length_cons, hxs]
        omega
      rw [e1, e2, List.drop_succ_cons]

/-- Claim C1: starting from the empty buffer, after any sequence of appends
the history buffer holds at most 5 entries and equals exactly the most
recent turns of the sequence, in order (eviction strictly oldest-first);
in particular, after 6 appends `formatHistory` shows exactly the last 5
turns, the first evicted. -/
theorem history_bounded_fifo (ts : List Turn) :
    (ts.foldl appendTurn []).length ≤ 5 ∧
    ts.foldl appendTurn [] = ts.drop (ts.length - 5) ∧
    (ts.length = 6 →
      formatHistory (ts.foldl appendTurn []) = formatHistory (ts.drop 1)) := by
  have key := foldl_appendTurn ts [] (by simp)
  rw [List.nil_append] at key
  refine ⟨?_, key, ?_⟩
  · rw [key, List.length_drop]
    omega
  · intro h6
    rw [key, h6]

/-- Concrete six-append run for claim C1. -/
theorem history_bounded_fifo_witness :
    sixTurns.length = 6 ∧
    formatHistory (sixTurns.foldl appendTurn []) =
      formatHistory (sixTurns.drop 1) :=
  ⟨by decide, (history_bounded_fifo sixTurns).2.2 (by decide)⟩

theorem contextString_nil : contextString [] = "" := rfl

theorem contextString_eq_empty_of_all_empty (ms : List SearchMatch)
    (h : ∀ m ∈ ms, matchText m = "") : contextString ms = "" := by
  unfold contextString
  have hfilter : (ms.map matchText).filter (fun t => t.length > 0) = [] := by
    rw [List.filter_eq_nil_iff]
    intro t ht
    obtain ⟨m, hm, rfl⟩ := List.mem_map.mp ht
    rw [h m hm]
    decide
  rw [hfilter]
  rfl

/-- Claim C2: a question whose vector search returns zero matches
short-circuits with the no-relevant-documents outcome, performs no
chat-model invocation, and leaves the history buffer unchanged. -/
theorem no_matches_short_circuit (env : Env) (now : String)
    (hist : List Turn) (question : String) (v : Vec)
    (hemb : env.embedQuery question = .ok v)
    (hq : env.query v = .ok []) :
    chatting env now hist question = ⟨.noDocs, hist, []⟩ := by
  unfold chatting
  simp only [hemb, hq]
  rfl

/-- Concrete zero-match run for claim C2. -/
theorem no_matches_short_circuit_witness :
    chatting envNoDocs emptyStr [] qStr = ⟨Outcome.noDocs, [], []⟩ :=
  no_matches_short_circuit envNoDocs emptyStr [] qStr [] rfl rfl

/-- Counterexample to claim C3 as stated: when the matches all carry empty
text the code takes the line 135 branch, whose report is the distinct
no-text-content message of line 136, not the no-relevant-documents report
of line 126. -/
theorem empty_text_report_counterexample :
    (chatting envNoText emptyStr [] qStr).outcome = Outcome.noText ∧
    Outcome.noText ≠ Outcome.noDocs ∧
    outcomeMessage Outcome.noText ≠ outcomeMessage Outcome.noDocs :=
  ⟨rfl, by decide, by decide⟩

/-- Claim C3 (amended): a question whose search matches all carry empty or
absent metadata text short-circuits with the no-text-content outcome,
performs no chat-model invocation, and leaves the history buffer
unchanged. -/
theorem empty_text_short_circuit (env : Env) (now : String)
    (hist : List Turn) (question : String) (v : Vec)
    (ms : List SearchMatch)
    (hemb : env.embedQuery question = .ok v)
    (hq : env.query v = .ok ms)
    (hne : ms ≠ [])
    (hempty : ∀ m ∈ ms, matchText m = "") :
    chatting env now hist question = ⟨.noText, hist, []⟩ := by
  unfold chatting
  simp only [hemb, hq]
  have hlen : ¬ ms.length = 0 := by
    simpa [List.length_eq_zero] using hne
  rw [if_neg hlen, if_pos (contextString_eq_empty_of_all_empty ms hempty)]

/-- Concrete empty-text run for claim C3. -/
theorem empty_text_short_circuit_witness :
    chatting envNoText emptyStr [] qStr = ⟨Outcome.noText, [], []⟩ :=
  empty_text_short_circuit envNoText emptyStr [] qStr [] [emptyTextMatch]
    rfl rfl (by decide) (by decide)

theorem chatting_cases (env : Env) (now : String) (hist : List Turn)
    (question : String) :
    ((∀ a, (chatting env now hist question).outcome ≠ Outcome.answered a) ∧
      (chatting env now hist question).newHistory = hist) ∨
    ∃ a, (chatting env now hist question).outcome = Outcome.answered a ∧
      (chatting env now hist question).newHistory =
        appendTurn hist ⟨question, a, now⟩ := by
  rcases hemb : env.embedQuery question with e | v
  · exact Or.inl ⟨fun a => by simp [chatting, hemb], by simp [chatting, hemb]⟩
  · rcases hq : env.query v with e | ms
    · exact Or.inl
        ⟨fun a => by simp [chatting, hemb, hq], by simp [chatting, hemb, hq]⟩
    · by_cases h0 : ms.length = 0
      · exact Or.inl ⟨fun a => by simp [chatting, hemb, hq, h0],
          by simp [chatting, hemb, hq, h0]⟩
      · by_cases hctx : contextString ms = ""
        · exact Or.inl ⟨fun a => by simp [chatting, hemb, hq, h0, hctx],
            by simp [chatting, hemb, hq, h0, hctx]⟩
        · rcases hinv : env.invokeChain
              ⟨contextString ms, question, formatHistory hist⟩ with e | a
          · exact Or.inl
              ⟨fun a => by simp [chatting, hemb, hq, h0, hctx, hinv],
                by simp [chatting, hemb, hq, h0, hctx, hinv]⟩
          · exact Or.inr ⟨a, by simp [chatting, hemb, hq, h0, hctx, hinv],
              by simp [chatting, hemb, hq, h0, hctx, hinv]⟩

/-- Claim C4: if any step throws, the operation reports the logged error
and leaves the history exactly as it was; a turn is appended only on a
successful answer, and then it is exactly the new question/answer pair. -/
theorem chatting_atomic (env : Env) (now : String) (hist : List Turn)
    (question : String) :
    (∀ e, env.embedQuery question = .error e →
      chatting env now hist question = ⟨.errorLogged e, hist, []⟩) ∧
    (∀ v e, env.embedQuery question = .ok v → env.query v = .error e →
      chatting env now hist question = ⟨.errorLogged e, hist, []⟩) ∧
    (∀ e, (chatting env now hist question).outcome = Outcome.errorLogged e →
      (chatting env now hist question).newHistory = hist) ∧
    (∀ a, (chatting env now hist question).outcome = Outcome.answered a →
      (chatting env now hist question).newHistory =
        appendTurn hist ⟨question, a, now⟩) := by
  refine ⟨?_, ?_, ?_, ?_⟩
  · intro e he
    unfold chatting
    simp only [he]
  · intro v e hv he
    unfold chatting
    simp only [hv, he]
  · intro e hout
    rcases chatting_cases env now hist question with ⟨_, hh⟩ | ⟨a, ha, _⟩
    · exact hh
    · rw [hout] at ha
      exact absurd ha (by simp)
  · intro a hout
    rcases chatting_cases env now hist question with ⟨hne, _⟩ | ⟨b, hb, hh⟩
    · exact absurd hout (hne a)
    · rw [hout] at hb
      obtain rfl : a = b := by
        injection hb
      exact hh

/-- Concrete failing-embedding run for claim C4. -/
theorem chatting_atomic_witness :
    chatting envEmbedFail emptyStr [] qStr =
      ⟨Outcome.errorLogged embedErrMsg, [], []⟩ :=
  (chatting_atomic envEmbedFail emptyStr [] qStr).1 embedErrMsg rfl

/-- Claim C7: every chat-model invocation receives as context exactly the
non-empty matched chunk texts, in the order of the returned match list,
joined by the fixed delimiter, together with the question and the
formatted history. -/
theorem context_passed (env : Env) (now : String) (hist : List Turn)
    (question : String) (v : Vec) (ms : List SearchMatch)
    (hemb : env.embedQuery question = .ok v)
    (hq : env.query v = .ok ms) :
    ∀ call ∈ (chatting env now hist question).chatCalls,
      call = ⟨joinSep contextSep
          ((ms.map matchText).filter fun t => t.length > 0),
        question, formatHistory hist⟩ := by
  unfold chatting
  simp only [hemb, hq]
  intro call hc
  by_cases h0 : ms.length = 0
  · simp [h0] at hc
  · by_cases hctx : contextString ms = ""
    · simp [h0, hctx] at hc
    · rcases hinv : env.invokeChain
          ⟨contextString ms, question, formatHistory hist⟩ with e | a <;>
        simp [h0, hctx, hinv] at hc <;>
        rw [hc] <;>
        rfl

/-- Concrete successful run for claim C7. -/
theorem context_passed_witness :
    callOk = ⟨contextString [docMatch], qStr, formatHistory []⟩ :=
  context_passed envOk emptyStr [] qStr [] [docMatch] rfl rfl callOk
    (by decide)

theorem data_eq_nil_iff (s : String) : s.data = [] ↔ s = "" := by
  constructor
  · intro h
    exact String.ext h
  · intro h
    rw [h]

theorem joinSep_foldl (sep : String) (as : List String) :
    ∀ a : String, ∃ r : String,
      as.foldl (fun acc x => acc ++ sep ++ x) a = a ++ r := by
  induction as with
  | nil =>
    intro a
    exact ⟨"", by simp⟩
  | cons x xs ih =>
    intro a
    obtain ⟨r, hr⟩ := ih (a ++ sep ++ x)
    exact ⟨sep ++ x ++ r, by rw [List.foldl_cons, hr]; simp [String.append_assoc]⟩

theorem joinSep_cons (sep a : String) (as : List String) :
    ∃ r : String, joinSep sep (a :: as) = a ++ r :=
  joinSep_foldl sep as a

theorem formatHistory_cons (t : Turn) (ts : List Turn) :
    ∃ r : String, formatHistory (t :: ts) = "[Turn " ++ r := by
  unfold formatHistory
  rw [if_neg (by simp)]
  have henum : (t :: ts).enum = (0, t) :: List.enumFrom 1 ts := rfl
  rw [henum, List.map_cons]
  obtain ⟨r, hr⟩ := joinSep_cons turnSep (formatTurn 0 t)
    (List.map (fun p => formatTurn p.1 p.2) (List.enumFrom 1 ts))
  exact ⟨toString (0 + 1) ++ "]\nUser: " ++ t.question ++
      "\nAssistant: " ++ t.answer ++ r,
    by rw [hr]; simp [formatTurn, String.append_assoc]⟩

theorem bracket_prepend_ne_sentinel (r : String) :
    "[Turn " ++ r ≠ emptyHistoryMessage := by
  intro h
  have hd := congrArg String.data h
  rw [String.data_append] at hd
  have e1 : ("[Turn " : String).data = ['[', 'T', 'u', 'r', 'n', ' '] := rfl
  have e2 : emptyHistoryMessage.data =
      ['N', 'o', ' ', 'p', 'r', 'e', 'v', 'i', 'o', 'u', 's', ' ', 'c', 'o',
        'n', 'v', 'e', 'r', 's', 'a', 't', 'i', 'o', 'n', '.'] := rfl
  rw [e1, e2] at hd
  simp only [List.cons_append] at hd
  injection hd with h1 _
  exact absurd h1 (by decide)

theorem bracket_prepend_ne_empty (r : String) : "[Turn " ++ r ≠ "" := by
  intro h
  have hl := congrArg String.length h
  rw [String.length_append] at hl
  have h6 : ("[Turn " : String).length = 6 := rfl
  have h0 : ("" : String).length = 0 := rfl
  rw [h6, h0] at hl
  omega

/-- Claim C5: `formatHistory` returns the empty-history sentinel exactly
when the buffer is empty, and otherwise renders all buffered entries in
order as the numbered transcript; after a clear the buffer size is 0 and
the sentinel is returned. -/
theorem format_sentinel (hist : List Turn) :
    (formatHistory hist = emptyHistoryMessage ↔ hist = []) ∧
    (hist ≠ [] → formatHistory hist =
      joinSep turnSep (hist.enum.map fun p => formatTurn p.1 p.2)) ∧
    (clearHistory hist).length = 0 ∧
    formatHistory (clearHistory hist) = emptyHistoryMessage := by
  refine ⟨⟨?_, ?_⟩, ?_, rfl, rfl⟩
  · intro h
    cases hist with
    | nil => rfl
    | cons t ts =>
      obtain ⟨r, hr⟩ := formatHistory_cons t ts
      rw [hr] at h
      exact absurd h (bracket_prepend_ne_sentinel r)
  · intro h
    rw [h]
    rfl
  · intro hne
    unfold formatHistory
    rw [if_neg (fun h => hne (List.length_eq_zero.mp h))]

/-- Concrete empty-buffer and cleared-buffer checks for claim C5. -/
theorem format_sentinel_witness :
    formatHistory [] = emptyHistoryMessage :=
  (format_sentinel []).1.mpr rfl

/-- Claim C10: `formatHistory` returns a non-empty string on every possible
buffer state, so the fallback in the history command branch is never
selected. -/
theorem formatHistory_nonempty (hist : List Turn) :
    0 < (formatHistory hist).length ∧
    historyCommandOutput hist = formatHistory hist := by
  have hne : formatHistory hist ≠ "" := by
    cases hist with
    | nil => decide
    | cons t ts =>
      obtain ⟨r, hr⟩ := formatHistory_cons t ts
      rw [hr]
      exact bracket_prepend_ne_empty r
  constructor
  · by_contra h0
    push_neg at h0
    have hz : (formatHistory hist).length = 0 := Nat.le_zero.mp h0
    exact hne (String.ext (List.length_eq_zero.mp hz))
  · unfold historyCommandOutput
    rw [if_neg hne]

theorem ws_toLower (c : Char) (h : jsIsWhitespace c = true) :
    Char.toLower c = c := by
  unfold jsIsWhitespace at h
  simp only [Bool.or_eq_true, beq_iff_eq] at h
  rcases h with (((((((((h | h) | h) | h) | h) | h) | h) | h) | h) | h) <;>
    subst h <;> decide

theorem jsToLower_ne_of_mem_ws (line : String) (c : Char)
    (hc : c ∈ line.data) (hcws : jsIsWhitespace c = true) (r : String)
    (hr : ∀ d ∈ r.data, jsIsWhitespace d = false) : jsToLower line ≠ r := by
  intro he
  have hd : line.data.map Char.toLower = r.data := congrArg String.data he
  have hmem : Char.toLower c ∈ line.data.map Char.toLower :=
    List.mem_map_of_mem Char.toLower hc
  rw [ws_toLower c hcws, hd] at hmem
  have hfalse := hr c hmem
  rw [hfalse] at hcws
  exact Bool.noConfusion hcws

theorem map_toLower_all_ws (l : List Char)
    (h : ∀ c ∈ l, jsIsWhitespace c = true) :
    ∀ d ∈ l.map Char.toLower, jsIsWhitespace d = true := by
  intro d hd
  obtain ⟨c, hc, rfl⟩ := List.mem_map.mp hd
  rw [ws_toLower c (h c hc)]
  exact h c hc

theorem jsToLower_all_ws_ne (line : String)
    (h : ∀ c ∈ line.data, jsIsWhitespace c = true)
    (r : String) (d : Char) (hd : d ∈ r.data)
    (hdws : jsIsWhitespace d = false) : jsToLower line ≠ r := by
  intro he
  have hdata : line.data.map Char.toLower = r.data := congrArg String.data he
  have htrue : jsIsWhitespace d = true := by
    apply map_toLower_all_ws line.data h
    rw [hdata]
    exact hd
  rw [htrue] at hdws
  exact Bool.noConfusion hdws

theorem jsTrimChars_eq_nil_iff (l : List Char) :
    jsTrimChars l = [] ↔ ∀ c ∈ l, jsIsWhitespace c = true := by
  unfold jsTrimChars
  rw [List.reverse_eq_nil_iff, List.dropWhile_eq_nil_iff]
  constructor
  · intro h c hc
    rw [← List.takeWhile_append_dropWhile jsIsWhitespace l] at hc
    rcases List.mem_append.mp hc with h1 | h2
    · exact List.mem_takeWhile_imp h1
    · exact h c (List.mem_reverse.mpr h2)
  · intro h c hc
    exact h c ((List.dropWhile_sublist jsIsWhitespace).mem
      (List.mem_reverse.mp hc))

theorem jsTrim_eq_empty_iff (s : String) :
    jsTrim s = "" ↔ ∀ c ∈ s.data, jsIsWhitespace c = true := by
  rw [← jsTrimChars_eq_nil_iff s.data]
  constructor
  · intro h
    exact congrArg String.data h
  · intro h
    show String.mk (jsTrimChars s.data) = ""
    rw [h]

/-- Claim C6: a line matching a reserved command under case-insensitive
exact comparison is dispatched as that command; an empty or
whitespace-only line is ignored; and a line reaches retrieval as a
question only when it matches no reserved command and trims non-empty. -/
theorem dispatch_reserved (line : String) :
    (jsToLower line = "exit" → dispatch line = Action.exitCmd) ∧
    (jsToLower line = "history" → dispatch line = Action.showHistory) ∧
    (jsToLower line = "clear" → dispatch line = Action.clearCmd) ∧
    (jsTrim line = "" → dispatch line = Action.ignore) ∧
    (∀ q, dispatch line = Action.ask q →
      jsToLower line ≠ "exit" ∧ jsToLower line ≠ "history" ∧
        jsToLower line ≠ "clear" ∧ jsTrim line ≠ "") := by
  have h1 : jsToLower line = "exit" → dispatch line = Action.exitCmd := by
    intro h
    unfold dispatch
    rw [if_pos h]
  have h2 : jsToLower line = "history" →
      dispatch line = Action.showHistory := by
    intro h
    unfold dispatch
    rw [if_neg (by rw [h]; decide), if_pos h]
  have h3 : jsToLower line = "clear" → dispatch line = Action.clearCmd := by
    intro h
    unfold dispatch
    rw [if_neg (by rw [h]; decide), if_neg (by rw [h]; decide), if_pos h]
  have h4 : jsTrim line = "" → dispatch line = Action.ignore := by
    intro h
    have hws := (jsTrim_eq_empty_iff line).mp h
    unfold dispatch
    rw [if_neg (jsToLower_all_ws_ne line hws ("exit") 'e'
        (by decide) (by decide)),
      if_neg (jsToLower_all_ws_ne line hws ("history") 'h'
        (by decide) (by decide)),
      if_neg (jsToLower_all_ws_ne line hws ("clear") 'c'
        (by decide) (by decide)),
      if_neg (not_not_intro h)]
  refine ⟨h1, h2, h3, h4, ?_⟩
  intro q hq
  refine ⟨?_, ?_, ?_, ?_⟩
  · intro he
    rw [h1 he] at hq
    exact Action.noConfusion hq
  · intro he
    rw [h2 he] at hq
    exact Action.noConfusion hq
  · intro he
    rw [h3 he] at hq
    exact Action.noConfusion hq
  · intro he
    rw [h4 he] at hq
    exact Action.noConfusion hq

/-- Concrete mixed-case exit command for claim C6. -/
theorem dispatch_reserved_witness :
    dispatch exitLineSample = Action.exitCmd :=
  (dispatch_reserved exitLineSample).1 (by decide)

theorem exists_nonws_of_lower (cmd r : String) (hr : jsToLower cmd = r)
    (d : Char) (hd : d ∈ r.data) (hdws : jsIsWhitespace d = false) :
    ∃ c ∈ cmd.data, jsIsWhitespace c = false := by
  have hdata : cmd.data.map Char.toLower = r.data := congrArg String.data hr
  rw [← hdata] at hd
  obtain ⟨c, hc, hcl⟩ := List.mem_map.mp hd
  refine ⟨c, hc, ?_⟩
  cases hws : jsIsWhitespace c with
  | false => rfl
  | true =>
    rw [ws_toLower c hws] at hcl
    rw [hcl] at hws
    rw [hws] at hdws
    exact Bool.noConfusion hdws

/-- Claim C9: an input line consisting of a reserved command surrounded by
whitespace is not recognized as that command, because command matching
lowercases but never trims the raw line while the non-empty check trims
it; such a line is passed to the retrieval operation as a question. -/
theorem padded_command_becomes_question (pre cmd post : String)
    (hpre : ∀ c ∈ pre.data, jsIsWhitespace c = true)
    (hpost : ∀ c ∈ post.data, jsIsWhitespace c = true)
    (hpad : pre ≠ "" ∨ post ≠ "")
    (hcmd : jsToLower cmd = "exit" ∨ jsToLower cmd = "history" ∨
      jsToLower cmd = "clear") :
    dispatch (pre ++ cmd ++ post) = Action.ask (pre ++ cmd ++ post) := by
  have hdata : (pre ++ cmd ++ post).data =
      pre.data ++ cmd.data ++ post.data := by
    rw [String.data_append, String.data_append]
  obtain ⟨w, hwline, hw⟩ : ∃ w, w ∈ (pre ++ cmd ++ post).data ∧
      jsIsWhitespace w = true := by
    rcases hpad with h | h
    · obtain ⟨w, hwmem⟩ : ∃ w, w ∈ pre.data := by
        cases hp : pre.data with
        | nil => exact absurd ((data_eq_nil_iff pre).mp hp) h
        | cons a as => exact ⟨a, hp ▸ List.mem_cons_self a as⟩
      refine ⟨w, ?_, hpre w hwmem⟩
      rw [hdata]
      exact List.mem_append.mpr (Or.inl (List.mem_append.mpr (Or.inl hwmem)))
    · obtain ⟨w, hwmem⟩ : ∃ w, w ∈ post.data := by
        cases hp : post.data with
        | nil => exact absurd ((data_eq_nil_iff post).mp hp) h
        | cons a as => exact ⟨a, hp ▸ List.mem_cons_self a as⟩
      refine ⟨w, ?_, hpost w hwmem⟩
      rw [hdata]
      exact List.mem_append.mpr (Or.inr hwmem)
  have hne1 : jsToLower (pre ++ cmd ++ post) ≠ "exit" :=
    jsToLower_ne_of_mem_ws _ w hwline hw _ (by decide)
  have hne2 : jsToLower (pre ++ cmd ++ post) ≠ "history" :=
    jsToLower_ne_of_mem_ws _ w hwline hw _ (by decide)
  have hne3 : jsToLower (pre ++ cmd ++ post) ≠ "clear" :=
    jsToLower_ne_of_mem_ws _ w hwline hw _ (by decide)
  have htrim : jsTrim (pre ++ cmd ++ post) ≠ "" := by
    intro h
    have hall := (jsTrim_eq_empty_iff _).mp h
    obtain ⟨c, hc, hcws⟩ : ∃ c ∈ cmd.data, jsIsWhitespace c = false := by
      rcases hcmd with h1 | h1 | h1
      · exact exists_nonws_of_lower cmd _ h1 'e' (by decide) (by decide)
      · exact exists_nonws_of_lower cmd _ h1 'h' (by decide) (by decide)
      · exact exists_nonws_of_lower cmd _ h1 'c' (by decide) (by decide)
    have hcl : c ∈ (pre ++ cmd ++ post).data := by
      rw [hdata]
      exact List.mem_append.mpr (Or.inl (List.mem_append.mpr (Or.inr hc)))
    rw [hall c hcl] at hcws
    exact Bool.noConfusion hcws
  unfold dispatch
  rw [if_neg hne1, if_neg hne2, if_neg hne3, if_pos htrim]

/-- Concrete space-padded exit line for claim C9. -/
theorem padded_command_becomes_question_witness :
    dispatch (spaceStr ++ exitStr ++ emptyStr) =
      Action.ask (spaceStr ++ exitStr ++ emptyStr) :=
  padded_command_becomes_question spaceStr exitStr emptyStr (by decide)
    (by decide) (Or.inl (by decide)) (Or.inl (by decide))

theorem splitChars_step (l : List Char) (h : ¬ l.length ≤ CHUNK_SIZE) :
    splitChars l = l.take 1000 :: splitChars (l.drop 800) := by
  rw [splitChars]
  rw [dif_neg h]
  rfl

theorem splitChars_base (l : List Char) (h : l.length ≤ CHUNK_SIZE) :
    splitChars l = [l] := by
  rw [splitChars]
  rw [dif_pos h]

/-- Claim C8 (chunker modelled from the spec, see `splitChars`): splitting
any 2500-character page with chunk size 1000 and overlap 200 yields
exactly 3 chunks; every chunk has at most 1000 characters; and each pair
of consecutive chunks shares a 200-character overlap, the 200-character
suffix of one chunk equal to the 200-character prefix of the next. -/
theorem split_2500 (l : List Char) (h : l.length = 2500) :
    splitChars l = [l.take 1000, (l.drop 800).take 1000, l.drop 1600] ∧
    (splitChars l).length = 3 ∧
    (∀ c ∈ splitChars l, c.length ≤ 1000) ∧
    (l.take 1000).drop 800 = ((l.drop 800).take 1000).take 200 ∧
    ((l.drop 800).take 1000).drop 800 = (l.drop 1600).take 200 := by
  have hmain : splitChars l =
      [l.take 1000, (l.drop 800).take 1000, l.drop 1600] := by
    rw [splitChars_step l (by rw [h]; decide)]
    rw [splitChars_step (l.drop 800) (by rw [List.length_drop, h]; decide)]
    rw [List.drop_drop, show (800 : Nat) + 800 = 1600 from rfl]
    rw [splitChars_base (l.drop 1600) (by rw [List.length_drop, h]; decide)]
  refine ⟨hmain, ?_, ?_, ?_, ?_⟩
  · rw [hmain]
    rfl
  · intro c hc
    rw [hmain] at hc
    simp only [List.mem_cons, List.not_mem_nil, or_false] at hc
    rcases hc with rfl | rfl | rfl
    · rw [List.length_take]
      exact min_le_left 1000 l.length
    · rw [List.length_take]
      exact min_le_left 1000 (l.drop 800).length
    · rw [List.length_drop, h]
      decide
  · rw [List.drop_take, List.take_take]
    norm_num
  · rw [List.drop_take, List.drop_drop]

/-- Concrete 2500-character page for claim C8. -/
theorem split_2500_witness :
    (splitChars sample2500).length = 3 :=
  (split_2500 sample2500 (by simp only [sample2500, List.length_replicate])).2.1

end RagContext
